import Mathlib

/-!
Verification development for the research-digest pipeline (src/digest.py).

The pipeline is embedded shallowly:
* the HTML renderer's four text-substitution passes (generate_html_email,
  lines 103-113) are embedded as executable functions on `List Char` that
  model Python's `re.sub` for the three patterns involved and `str.replace`
  for the fourth;
* the feed fetcher (fetch_papers, lines 23-38) is embedded with the external
  feed parser abstracted as an oracle `String → List FeedEntry`;
* the ranking client (filter_and_rank_papers, lines 41-95) is embedded with
  the environment and the generative model abstracted as oracles, and with
  an event trace recording external calls in order;
* delivery (send_email, lines 200-238) is embedded likewise, with console
  output and SMTP activity recorded as an ordered event trace.
-/

/-! ## HTML renderer: the four substitution passes (lines 103-113)

Pass 1: `re.sub(r'###\s+(.+)', r'<h3>\1</h3>', text)`
Pass 2: `re.sub(r'\*\*(.+?)\*\*', r'<strong>\1</strong>', text)`
Pass 3: `re.sub(r'\[(.+?)\]\((.+?)\)', r'<a href="\2">\1</a>', text)`
Pass 4: `text.replace('\n\n', '<br><br>')`

Python `re.sub` scans left to right, replaces the leftmost match (greedy or
lazy quantifiers resolved by backtracking), and resumes scanning after the
replaced span.  `.` does not match a newline; `\s` matches whitespace
including the newline. -/

/-- Whitespace class of the regex `\s` on Python `str` patterns: the
characters with the Unicode whitespace property — space, tab, newline,
carriage return, vertical tab, form feed, the separators U+001C-U+001F,
next line, no-break space, Ogham space mark, the spaces U+2000-U+200A, the
line and paragraph separators, narrow no-break space, medium mathematical
space, and ideographic space. -/
def isWS (c : Char) : Bool :=
  c = ' ' || c = '\t' || c = '\n' || c = '\r' || c = '\x0b' || c = '\x0c' ||
  ('\x1c' ≤ c && c ≤ '\x1f') || c = '\x85' || c = '\xa0' ||
  c = '\u1680' || ('\u2000' ≤ c && c ≤ '\u200a') || c = '\u2028' ||
  c = '\u2029' || c = '\u202f' || c = '\u205f' || c = '\u3000'

/-- Split off the maximal run of non-newline characters: the greedy `(.+)`
group (to be matched against a list whose head is not a newline) together
with the unconsumed remainder of the text. -/
def splitNl (l : List Char) : List Char × List Char :=
  (l.takeWhile (fun ch => ch != '\n'), l.dropWhile (fun ch => ch != '\n'))

/-- Greedy continuation of `\s+(.+)` once at least one whitespace character
has been consumed: prefer to consume further whitespace (longer `\s+`), and
on failure backtrack so that `(.+)` starts as late as possible.  Returns the
`(.+)` capture and the unconsumed remainder. -/
def hAfterWS : List Char → Option (List Char × List Char)
  | [] => none
  | c :: cs =>
    if isWS c then
      match hAfterWS cs with
      | some r => some r
      | none => if c = '\n' then none else some (splitNl (c :: cs))
    else
      some (splitNl (c :: cs))

/-- Leftmost match of `###\s+(.+)` at the head of the list: three hash
characters, at least one whitespace character (greedy), then the greedy
non-empty non-newline capture.  Returns the capture and the remainder. -/
def headAt : List Char → Option (List Char × List Char)
  | c1 :: c2 :: c3 :: c4 :: cs =>
    if c1 = '#' && c2 = '#' && c3 = '#' && isWS c4 then hAfterWS cs else none
  | _ => none

/-- Lazy search for the closing `\*\*` of pass 2: at each position first try
to read the two closing asterisks, otherwise extend the `(.+?)` capture by
one non-newline character.  Returns the capture extension and remainder. -/
def closeStars : List Char → Option (List Char × List Char)
  | [] => none
  | [_] => none
  | c :: c' :: cs =>
    if c = '*' && c' = '*' then some ([], cs)
    else if c = '\n' then none
    else (closeStars (c' :: cs)).map (fun p => (c :: p.1, p.2))

/-- Match of `\*\*(.+?)\*\*` at the head of the list: two asterisks, a lazy
non-empty non-newline capture, two closing asterisks. -/
def boldAt : List Char → Option (List Char × List Char)
  | [] => none
  | [_] => none
  | [_, _] => none
  | c1 :: c2 :: c3 :: cs =>
    if c1 = '*' && c2 = '*' && c3 ≠ '\n' then
      (closeStars cs).map (fun p => (c3 :: p.1, p.2))
    else none

/-- Lazy search for the closing `\)` of the second capture of pass 3. -/
def closeParen : List Char → Option (List Char × List Char)
  | [] => none
  | c :: cs =>
    if c = ')' then some ([], cs)
    else if c = '\n' then none
    else (closeParen cs).map (fun p => (c :: p.1, p.2))

/-- Match of the lazy non-empty group `(.+?)` followed by `\)`, entered
immediately after the `](` separator has been consumed. -/
def g2At : List Char → Option (List Char × List Char)
  | [] => none
  | c :: cs =>
    if c = '\n' then none else (closeParen cs).map (fun p => (c :: p.1, p.2))

/-- Backtracking continuation of `(.+?)\]\((.+?)\)` once at least one
character of the first capture has been consumed: at each position first try
to read `](` followed by a complete second group, otherwise extend the first
capture by one non-newline character.  Returns the extension of the first
capture, the second capture, and the remainder. -/
def linkTail : List Char → Option (List Char × List Char × List Char)
  | [] => none
  | [_] => none
  | c :: c' :: cs =>
    if c = ']' && c' = '(' then
      match g2At cs with
      | some (g2, r) => some ([], g2, r)
      | none => (linkTail (c' :: cs)).map (fun q => (c :: q.1, q.2))
    else if c = '\n' then none
    else (linkTail (c' :: cs)).map (fun q => (c :: q.1, q.2))

/-- Match of `\[(.+?)\]\((.+?)\)` at the head of the list. -/
def linkAt : List Char → Option (List Char × List Char × List Char)
  | [] => none
  | [_] => none
  | c :: c' :: cs =>
    if c = '[' && c' ≠ '\n' then (linkTail cs).map (fun q => (c' :: q.1, q.2))
    else none

/-- Fuel-indexed scanner for pass 1 (the fuel makes the recursion structural;
`subHead` instantiates it with the length of the text, which suffices). -/
def subHeadF : Nat → List Char → List Char
  | 0, l => l
  | _ + 1, [] => []
  | fuel + 1, c :: cs =>
    match headAt (c :: cs) with
    | some (g, rest) => "<h3>".data ++ g ++ "</h3>".data ++ subHeadF fuel rest
    | none => c :: subHeadF fuel cs

/-- Pass 1 of the renderer: `re.sub(r'###\s+(.+)', r'<h3>\1</h3>', text)`. -/
def subHead (l : List Char) : List Char := subHeadF l.length l

/-- Fuel-indexed scanner for pass 2. -/
def subBoldF : Nat → List Char → List Char
  | 0, l => l
  | _ + 1, [] => []
  | fuel + 1, c :: cs =>
    match boldAt (c :: cs) with
    | some (g, rest) =>
      "<strong>".data ++ g ++ "</strong>".data ++ subBoldF fuel rest
    | none => c :: subBoldF fuel cs

/-- Pass 2 of the renderer:
`re.sub(r'\*\*(.+?)\*\*', r'<strong>\1</strong>', text)`. -/
def subBold (l : List Char) : List Char := subBoldF l.length l

/-- Fuel-indexed scanner for pass 3. -/
def subLinkF : Nat → List Char → List Char
  | 0, l => l
  | _ + 1, [] => []
  | fuel + 1, c :: cs =>
    match linkAt (c :: cs) with
    | some (g1, g2, rest) =>
      "<a href=\"".data ++ g2 ++ "\">".data ++ g1 ++ "</a>".data ++
        subLinkF fuel rest
    | none => c :: subLinkF fuel cs

/-- Pass 3 of the renderer:
`re.sub(r'\[(.+?)\]\((.+?)\)', r'<a href="\2">\1</a>', text)`. -/
def subLink (l : List Char) : List Char := subLinkF l.length l

/-- Pass 4 of the renderer: `text.replace('\n\n', '<br><br>')` (left to
right, non-overlapping). -/
def subBreaks : List Char → List Char
  | [] => []
  | [c] => [c]
  | c :: c' :: cs =>
    if c = '\n' && c' = '\n' then "<br><br>".data ++ subBreaks cs
    else c :: subBreaks (c' :: cs)

/-- The four substitution passes of `generate_html_email`, in source order
(lines 104, 107, 110, 113). -/
def renderPasses (l : List Char) : List Char :=
  subBreaks (subLink (subBold (subHead l)))

/-! ## Data model and feed fetcher (fetch_papers, lines 23-38)

The external `feedparser.parse` call is abstracted as an oracle mapping a
feed URL to the list of entries of that feed; an entry's `get` with default
is modelled by `Option` fields. -/

/-- One parsed feed entry; `none` models a missing key (`entry.get(k, '')`
falls back to the empty string). -/
structure FeedEntry where
  title : Option String
  summary : Option String
  link : Option String

/-- One configured feed source: `{name, url}`. -/
structure FeedInfo where
  name : String
  url : String

/-- The flat paper record built by the fetcher (lines 31-36). -/
structure Paper where
  title : String
  summary : String
  link : String
  source : String
deriving Repr, DecidableEq

/-- The record appended for one entry (lines 31-36): empty-string defaults
for missing title/summary/link, and the source name of the feed. -/
def entryToPaper (source : String) (e : FeedEntry) : Paper :=
  { title := e.title.getD "", summary := e.summary.getD "",
    link := e.link.getD "", source := source }

/-- fetch_papers (lines 23-38): for each feed in order, parse it, take the
first 50 entries, and append one record per entry to the accumulated list.
`parse` abstracts `feedparser.parse`; the progress print has no effect on
the returned list. -/
def fetch_papers (parse : String → List FeedEntry) (feeds : List FeedInfo) :
    List Paper :=
  feeds.foldl
    (fun papers fi =>
      papers ++ ((parse fi.url).take 50).map (entryToPaper fi.name)) []

/-! ## Ranking client (filter_and_rank_papers, lines 41-95)

`os.environ.get` is abstracted as `env : String → Option String`, the
generative-model call as `gen : String → String`.  External calls are
recorded as an ordered event trace.  The `papers` argument is threaded
through and returned as the third component, modelling the final contents
of the caller's list object: the source only reads it (the slice
`papers[:150]` on line 52 copies, and the loop reads fields). -/

/-- Python string slicing `s[:n]`: the first `n` characters (code points)
of the string. -/
def strTake (s : String) (n : Nat) : String :=
  String.mk (s.data.take n)

/-- The line built for paper number `i` (1-based) on line 53; the summary is
truncated to its first 400 characters. -/
def paperLine (i : Nat) (p : Paper) : String :=
  toString i ++ ". **" ++ p.title ++ "** (Source: " ++ p.source ++
    ")\n   Abstract: " ++ strTake p.summary 400 ++ "\n   Link: " ++ p.link

/-- The enumerated candidate listing (lines 51-53): one line per paper of
the first 150, numbered from 1. -/
def papersListOf (papers : List Paper) : List String :=
  ((papers.take 150).enumFrom 1).map (fun ip => paperLine ip.1 ip.2)

/-- The prompt f-string of lines 55-92, with the three interpolations
(`research_interests`, `max_papers` twice, and the joined candidate
listing). -/
def promptOf (research_interests : String) (max_papers : Nat)
    (papers : List Paper) : String :=
  "You are an expert research assistant with deep knowledge of academic literature.\n\nRESEARCHER\x27S PROFILE:\n"
    ++ research_interests
    ++ "\n\nYOUR TASK:\nCarefully review the papers below and select the TOP "
    ++ toString max_papers
    ++ " most valuable papers for this researcher.\nBe highly selective - only include papers that would genuinely advance their research.\n\nPAPERS TO REVIEW:\n"
    ++ String.intercalate "\n" (papersListOf papers)
    ++ "\n\nOUTPUT FORMAT:\nFor each selected paper, provide:\n\n### [Paper Number]. Paper Title\n\n**Source:** [Journal/Working Paper Series]\n\n**Why this matters:** [2-3 sentences explaining the paper\x27s relevance to the researcher\x27s work. Be specific - reference their research questions, methods, or contexts. Explain what they can learn or adapt from this paper.]\n\n**Key findings:** [2-3 sentences on the main empirical results, methodology, or theoretical contribution. Focus on actionable insights.]\n\n**Link:** [Full URL]\n\n---\n\nCRITICAL INSTRUCTIONS:\n- Quality over quantity: It\x27s better to return 5 exceptional papers than 15 mediocre ones\n- Be ruthless: Only include papers that directly advance their research agenda\n- Prioritize papers with strong identification strategies and novel contributions\n- Skip papers that are tangentially related or merely descriptive\n- For each paper, think: \"Would I email this to them if I were their research assistant?\"\n- Order papers by relevance (most relevant first)\n- If fewer than "
    ++ toString max_papers
    ++ " papers meet the high bar, that\x27s okay - only return the truly valuable ones\n\nBegin your response with a brief 1-sentence summary of the overall quality and themes of this week\x27s papers, then list the selected papers.\n"

/-- Outcome of the ranking client: the raised error message, or the model's
raw text response returned verbatim. -/
inductive RankResult where
  | err (msg : String)
  | ok (text : String)
deriving Repr, DecidableEq

/-- External calls made by the ranking client, in order. -/
inductive GenEvent where
  | configure (api_key : String)
  | generate (prompt : String)
deriving Repr, DecidableEq

/-- filter_and_rank_papers (lines 41-95).  `os.environ.get` returns `none`
for an absent variable, and Python's `if not api_key` also treats the empty
string as missing.  On success the trace records `genai.configure` and the
single `generate_content` call; the third component is the final contents
of the `papers` argument. -/
def filter_and_rank_papers (env : String → Option String)
    (gen : String → String) (papers : List Paper)
    (research_interests : String) (max_papers : Nat) :
    RankResult × List GenEvent × List Paper :=
  let api_key := (env "GEMINI_API_KEY").getD ""
  if api_key = "" then
    (.err "GEMINI_API_KEY not found in environment variables", [], papers)
  else
    let prompt := promptOf research_interests max_papers papers
    (.ok (gen prompt), [.configure api_key, .generate prompt], papers)

/-! ## Delivery (send_email, lines 200-238)

Console output and SMTP activity are recorded as an ordered event trace;
the optional `smtpFail` oracle is the message of the exception the
transport block raises, if any (`none` means login and send succeed). -/

/-- The configuration fields send_email uses: `config['email']` and
`config.get('email_method', 'print')` (`none` models the absent key). -/
structure Config where
  email : String
  email_method : Option String

/-- Observable actions of send_email, in order of occurrence. -/
inductive Ev where
  | print (s : String)
  | connect (host : String) (port : Nat)
  | login (user pw : String)
  | send (sender recipient subject : String)
deriving Repr, DecidableEq

/-- send_email (lines 200-238).  Returns the event trace and the message of
the raised exception, if any.  `env` abstracts `os.environ.get`; `now` is
the `%Y-%m-%d` date used in the subject.  Python's
`if not sender_email or not sender_password` treats both an absent and an
empty environment value as missing.  On a transport failure the trace is an
approximation of the failure point: it records the connect and login steps
before the diagnostic, though the real exception may already arise at
connect (no login attempted) or only at send. -/
def send_email (env : String → Option String) (smtpFail : Option String)
    (now : String) (html_content : String) (config : Config) :
    List Ev × Option String :=
  let email_method := config.email_method.getD "print"
  if email_method = "print" then
    ([.print "Email generation successful!",
      .print ("Would send to: " ++ config.email),
      .print "\nPreview:",
      .print (strTake html_content 500)], none)
  else if email_method = "gmail" then
    let sender_email := (env "GMAIL_ADDRESS").getD ""
    let sender_password := (env "GMAIL_APP_PASSWORD").getD ""
    if sender_email = "" || sender_password = "" then
      ([], some "Gmail credentials not found. Set GMAIL_ADDRESS and GMAIL_APP_PASSWORD in secrets.")
    else
      let subject := "Research Digest - " ++ now
      match smtpFail with
      | none =>
        ([.connect "smtp.gmail.com" 465,
          .login sender_email sender_password,
          .send sender_email config.email subject,
          .print ("Email sent successfully to " ++ config.email)], none)
      | some e =>
        ([.connect "smtp.gmail.com" 465,
          .login sender_email sender_password,
          .print ("Failed to send email: " ++ e)], some e)
  else
    ([], some ("Unknown email method: " ++ email_method ++
      ". Use \x27print\x27 or \x27gmail\x27"))

/-! ## Helper lemmas about the renderer passes -/

/-- No position of the text matches any of the three substitution patterns
(heading marker, bold span, link syntax). -/
def noMarkers : List Char → Bool
  | [] => true
  | c :: cs =>
    (headAt (c :: cs)).isNone && (boldAt (c :: cs)).isNone &&
      (linkAt (c :: cs)).isNone && noMarkers cs

/-- The text contains no two consecutive newline characters. -/
def noDoubleNL : List Char → Bool
  | [] => true
  | [_] => true
  | c :: c' :: cs => !(c = '\n' && c' = '\n') && noDoubleNL (c' :: cs)

theorem closeStars_length : ∀ (l g r : List Char),
    closeStars l = some (g, r) → l.length = g.length + r.length + 2 := by
  intro l
  induction l with
  | nil => intro g r h; simp [closeStars] at h
  | cons c cs ih =>
    intro g r h
    match cs with
    | [] => simp [closeStars] at h
    | c' :: cs' =>
      rw [closeStars] at h
      split at h
      · simp at h
        obtain ⟨rfl, rfl⟩ := h
        simp
      · split at h
        · simp at h
        · cases hc : closeStars (c' :: cs') with
          | none => rw [hc] at h; simp at h
          | some p =>
            obtain ⟨a, b⟩ := p
            rw [hc] at h
            simp at h
            obtain ⟨rfl, rfl⟩ := h
            have := ih a b hc
            simp only [List.length_cons] at this ⊢
            omega

theorem boldAt_length : ∀ (l g r : List Char),
    boldAt l = some (g, r) → r.length < l.length := by
  intro l g r h
  match l with
  | [] => simp [boldAt] at h
  | [c] => simp [boldAt] at h
  | [c, c'] => simp [boldAt] at h
  | c1 :: c2 :: c3 :: cs =>
    rw [boldAt] at h
    split at h
    · cases hc : closeStars cs with
      | none => rw [hc] at h; simp at h
      | some p =>
        obtain ⟨a, b⟩ := p
        rw [hc] at h
        simp at h
        obtain ⟨rfl, rfl⟩ := h
        have := closeStars_length cs a b hc
        simp only [List.length_cons] at this ⊢
        omega
    · simp at h

theorem closeParen_length : ∀ (l g r : List Char),
    closeParen l = some (g, r) → l.length = g.length + r.length + 1 := by
  intro l
  induction l with
  | nil => intro g r h; simp [closeParen] at h
  | cons c cs ih =>
    intro g r h
    rw [closeParen] at h
    split at h
    · simp at h
      obtain ⟨rfl, rfl⟩ := h
      simp
    · split at h
      · simp at h
      · cases hc : closeParen cs with
        | none => rw [hc] at h; simp at h
        | some p =>
          obtain ⟨a, b⟩ := p
          rw [hc] at h
          simp at h
          obtain ⟨rfl, rfl⟩ := h
          have := ih a b hc
          simp only [List.length_cons] at this ⊢
          omega

theorem g2At_length : ∀ (l g r : List Char),
    g2At l = some (g, r) → l.length = g.length + r.length + 1 := by
  intro l g r h
  match l with
  | [] => simp [g2At] at h
  | c :: cs =>
    rw [g2At] at h
    split at h
    · simp at h
    · cases hc : closeParen cs with
      | none => rw [hc] at h; simp at h
      | some p =>
        obtain ⟨a, b⟩ := p
        rw [hc] at h
        simp at h
        obtain ⟨rfl, rfl⟩ := h
        have := closeParen_length cs a b hc
        simp only [List.length_cons] at this ⊢
        omega

theorem linkTail_length : ∀ (l g1 g2 r : List Char),
    linkTail l = some (g1, g2, r) → g2.length + r.length < l.length := by
  intro l
  induction l with
  | nil => intro g1 g2 r h; simp [linkTail] at h
  | cons c cs ih =>
    intro g1 g2 r h
    match cs with
    | [] => simp [linkTail] at h
    | c' :: cs' =>
      rw [linkTail] at h
      split at h
      · cases hg : g2At cs' with
        | some q =>
          obtain ⟨a, b⟩ := q
          rw [hg] at h
          dsimp only at h
          simp at h
          obtain ⟨rfl, rfl, rfl⟩ := h
          have := g2At_length cs' a b hg
          simp only [List.length_cons] at this ⊢
          omega
        | none =>
          rw [hg] at h
          dsimp only at h
          cases ht : linkTail (c' :: cs') with
          | none => rw [ht] at h; simp at h
          | some q =>
            obtain ⟨a, b, d⟩ := q
            rw [ht] at h
            simp at h
            obtain ⟨rfl, rfl, rfl⟩ := h
            have := ih a b d ht
            simp only [List.length_cons] at this ⊢
            omega
      · split at h
        · simp at h
        · cases ht : linkTail (c' :: cs') with
          | none => rw [ht] at h; simp at h
          | some q =>
            obtain ⟨a, b, d⟩ := q
            rw [ht] at h
            simp at h
            obtain ⟨rfl, rfl, rfl⟩ := h
            have := ih a b d ht
            simp only [List.length_cons] at this ⊢
            omega

theorem linkAt_length : ∀ (l g1 g2 r : List Char),
    linkAt l = some (g1, g2, r) → r.length < l.length := by
  intro l g1 g2 r h
  match l with
  | [] => simp [linkAt] at h
  | [c] => simp [linkAt] at h
  | c :: c' :: cs =>
    rw [linkAt] at h
    split at h
    · cases ht : linkTail cs with
      | none => rw [ht] at h; simp at h
      | some q =>
        obtain ⟨a, b, d⟩ := q
        rw [ht] at h
        simp at h
        obtain ⟨rfl, rfl, rfl⟩ := h
        have := linkTail_length cs a b d ht
        simp only [List.length_cons] at this ⊢
        omega
    · simp at h

theorem splitNl_snd_length (l : List Char) : (splitNl l).2.length ≤ l.length := by
  simpa [splitNl] using
    (List.dropWhile_sublist (l := l) (fun ch => ch != '\n')).length_le

theorem hAfterWS_length : ∀ (l g r : List Char),
    hAfterWS l = some (g, r) → r.length ≤ l.length := by
  intro l
  induction l with
  | nil => intro g r h; simp [hAfterWS] at h
  | cons c cs ih =>
    intro g r h
    rw [hAfterWS] at h
    split at h
    · cases hr : hAfterWS cs with
      | some p =>
        obtain ⟨a, b⟩ := p
        rw [hr] at h
        dsimp only at h
        simp at h
        obtain ⟨rfl, rfl⟩ := h
        have := ih a b hr
        simp only [List.length_cons]
        omega
      | none =>
        rw [hr] at h
        dsimp only at h
        split at h
        · simp at h
        · simp at h
          have h2 : r = (splitNl (c :: cs)).2 := by rw [h]
          rw [h2]
          exact splitNl_snd_length (c :: cs)
    · simp at h
      have h2 : r = (splitNl (c :: cs)).2 := by rw [h]
      rw [h2]
      exact splitNl_snd_length (c :: cs)

theorem headAt_length : ∀ (l g r : List Char),
    headAt l = some (g, r) → r.length < l.length := by
  intro l g r h
  match l with
  | [] => simp [headAt] at h
  | [c] => simp [headAt] at h
  | [c, c'] => simp [headAt] at h
  | [c, c', c''] => simp [headAt] at h
  | c1 :: c2 :: c3 :: c4 :: cs =>
    rw [headAt] at h
    split at h
    · have := hAfterWS_length cs g r h
      simp
      omega
    · simp at h

theorem subHeadF_fuel : ∀ (f1 f2 : Nat) (l : List Char),
    l.length ≤ f1 → l.length ≤ f2 → subHeadF f1 l = subHeadF f2 l := by
  intro f1
  induction f1 with
  | zero =>
    intro f2 l h1 _
    have : l = [] := List.length_eq_zero.mp (Nat.le_zero.mp h1)
    subst this
    cases f2 <;> simp [subHeadF]
  | succ f1 ih =>
    intro f2 l h1 h2
    match l with
    | [] => cases f2 <;> simp [subHeadF]
    | c :: cs =>
      match f2 with
      | 0 => simp at h2
      | f2 + 1 =>
        rw [subHeadF, subHeadF]
        cases hm : headAt (c :: cs) with
        | some p =>
          obtain ⟨g, rest⟩ := p
          dsimp only
          have hlt := headAt_length (c :: cs) g rest hm
          simp only [List.length_cons] at h1 h2 hlt
          rw [ih f2 rest (by omega) (by omega)]
        | none =>
          dsimp only
          simp only [List.length_cons] at h1 h2
          rw [ih f2 cs (by omega) (by omega)]

theorem subBoldF_fuel : ∀ (f1 f2 : Nat) (l : List Char),
    l.length ≤ f1 → l.length ≤ f2 → subBoldF f1 l = subBoldF f2 l := by
  intro f1
  induction f1 with
  | zero =>
    intro f2 l h1 _
    have : l = [] := List.length_eq_zero.mp (Nat.le_zero.mp h1)
    subst this
    cases f2 <;> simp [subBoldF]
  | succ f1 ih =>
    intro f2 l h1 h2
    match l with
    | [] => cases f2 <;> simp [subBoldF]
    | c :: cs =>
      match f2 with
      | 0 => simp at h2
      | f2 + 1 =>
        rw [subBoldF, subBoldF]
        cases hm : boldAt (c :: cs) with
        | some p =>
          obtain ⟨g, rest⟩ := p
          dsimp only
          have hlt := boldAt_length (c :: cs) g rest hm
          simp only [List.length_cons] at h1 h2 hlt
          rw [ih f2 rest (by omega) (by omega)]
        | none =>
          dsimp only
          simp only [List.length_cons] at h1 h2
          rw [ih f2 cs (by omega) (by omega)]

theorem subLinkF_fuel : ∀ (f1 f2 : Nat) (l : List Char),
    l.length ≤ f1 → l.length ≤ f2 → subLinkF f1 l = subLinkF f2 l := by
  intro f1
  induction f1 with
  | zero =>
    intro f2 l h1 _
    have : l = [] := List.length_eq_zero.mp (Nat.le_zero.mp h1)
    subst this
    cases f2 <;> simp [subLinkF]
  | succ f1 ih =>
    intro f2 l h1 h2
    match l with
    | [] => cases f2 <;> simp [subLinkF]
    | c :: cs =>
      match f2 with
      | 0 => simp at h2
      | f2 + 1 =>
        rw [subLinkF, subLinkF]
        cases hm : linkAt (c :: cs) with
        | some q =>
          obtain ⟨g1, g2, rest⟩ := q
          dsimp only
          have hlt := linkAt_length (c :: cs) g1 g2 rest hm
          simp only [List.length_cons] at h1 h2 hlt
          rw [ih f2 rest (by omega) (by omega)]
        | none =>
          dsimp only
          simp only [List.length_cons] at h1 h2
          rw [ih f2 cs (by omega) (by omega)]

theorem subHead_cons_none {c : Char} {cs : List Char}
    (h : headAt (c :: cs) = none) : subHead (c :: cs) = c :: subHead cs := by
  show subHeadF (cs.length + 1) (c :: cs) = c :: subHead cs
  rw [subHeadF, h]
  rfl

theorem subHead_cons_some {c : Char} {cs g rest : List Char}
    (h : headAt (c :: cs) = some (g, rest)) :
    subHead (c :: cs) = "<h3>".data ++ g ++ "</h3>".data ++ subHead rest := by
  have hlt := headAt_length (c :: cs) g rest h
  simp only [List.length_cons] at hlt
  show subHeadF (cs.length + 1) (c :: cs) = _
  rw [subHeadF, h]
  dsimp only
  rw [subHeadF_fuel cs.length rest.length rest (by omega) (by omega)]
  rfl

theorem subBold_cons_none {c : Char} {cs : List Char}
    (h : boldAt (c :: cs) = none) : subBold (c :: cs) = c :: subBold cs := by
  show subBoldF (cs.length + 1) (c :: cs) = c :: subBold cs
  rw [subBoldF, h]
  rfl

theorem subBold_cons_some {c : Char} {cs g rest : List Char}
    (h : boldAt (c :: cs) = some (g, rest)) :
    subBold (c :: cs) =
      "<strong>".data ++ g ++ "</strong>".data ++ subBold rest := by
  have hlt := boldAt_length (c :: cs) g rest h
  simp only [List.length_cons] at hlt
  show subBoldF (cs.length + 1) (c :: cs) = _
  rw [subBoldF, h]
  dsimp only
  rw [subBoldF_fuel cs.length rest.length rest (by omega) (by omega)]
  rfl

theorem subLink_cons_none {c : Char} {cs : List Char}
    (h : linkAt (c :: cs) = none) : subLink (c :: cs) = c :: subLink cs := by
  show subLinkF (cs.length + 1) (c :: cs) = c :: subLink cs
  rw [subLinkF, h]
  rfl

theorem subLink_cons_some {c : Char} {cs g1 g2 rest : List Char}
    (h : linkAt (c :: cs) = some (g1, g2, rest)) :
    subLink (c :: cs) =
      "<a href=\"".data ++ g2 ++ "\">".data ++ g1 ++ "</a>".data ++
        subLink rest := by
  have hlt := linkAt_length (c :: cs) g1 g2 rest h
  simp only [List.length_cons] at hlt
  show subLinkF (cs.length + 1) (c :: cs) = _
  rw [subLinkF, h]
  dsimp only
  rw [subLinkF_fuel cs.length rest.length rest (by omega) (by omega)]
  rfl

theorem headAt_ne_hash {c : Char} (xs : List Char) (hc : c ≠ '#') :
    headAt (c :: xs) = none := by
  match xs with
  | [] => rfl
  | [a] => rfl
  | [a, b] => rfl
  | a :: b :: d :: rest =>
    rw [headAt]
    simp [hc]

theorem boldAt_ne_star {c : Char} (xs : List Char) (hc : c ≠ '*') :
    boldAt (c :: xs) = none := by
  match xs with
  | [] => rfl
  | [a] => rfl
  | a :: b :: rest =>
    rw [boldAt]
    simp [hc]

theorem linkAt_ne_lb {c : Char} (xs : List Char) (hc : c ≠ '[') :
    linkAt (c :: xs) = none := by
  match xs with
  | [] => rfl
  | a :: rest =>
    rw [linkAt]
    simp [hc]

theorem subHead_id_of_noMarkers : ∀ l, noMarkers l = true → subHead l = l := by
  intro l
  induction l with
  | nil => intro _; rfl
  | cons c cs ih =>
    intro h
    rw [noMarkers] at h
    simp only [Bool.and_eq_true, Option.isNone_iff_eq_none] at h
    obtain ⟨⟨⟨h1, h2⟩, h3⟩, h4⟩ := h
    rw [subHead_cons_none h1, ih h4]

theorem subBold_id_of_noMarkers : ∀ l, noMarkers l = true → subBold l = l := by
  intro l
  induction l with
  | nil => intro _; rfl
  | cons c cs ih =>
    intro h
    rw [noMarkers] at h
    simp only [Bool.and_eq_true, Option.isNone_iff_eq_none] at h
    obtain ⟨⟨⟨h1, h2⟩, h3⟩, h4⟩ := h
    rw [subBold_cons_none h2, ih h4]

theorem subLink_id_of_noMarkers : ∀ l, noMarkers l = true → subLink l = l := by
  intro l
  induction l with
  | nil => intro _; rfl
  | cons c cs ih =>
    intro h
    rw [noMarkers] at h
    simp only [Bool.and_eq_true, Option.isNone_iff_eq_none] at h
    obtain ⟨⟨⟨h1, h2⟩, h3⟩, h4⟩ := h
    rw [subLink_cons_none h3, ih h4]

theorem subBreaks_id_of_noDoubleNL : ∀ l, noDoubleNL l = true → subBreaks l = l := by
  intro l
  induction l with
  | nil => intro _; rfl
  | cons c cs ih =>
    intro h
    cases cs with
    | nil => rfl
    | cons c' cs' =>
      rw [noDoubleNL, Bool.and_eq_true] at h
      obtain ⟨hb, hrec⟩ := h
      rw [Bool.not_eq_true'] at hb
      rw [subBreaks, hb]
      simp only [Bool.false_eq_true, if_false]
      rw [ih hrec]

theorem subHead_copy : ∀ (p t : List Char), '#' ∉ p →
    subHead (p ++ t) = p ++ subHead t := by
  intro p t
  induction p with
  | nil => intro _; simp
  | cons c p' ih =>
    intro hp
    simp only [List.mem_cons, not_or] at hp
    rw [List.cons_append, subHead_cons_none (headAt_ne_hash _ (Ne.symm hp.1))]
    rw [ih (by simpa using hp.2)]
    rfl

theorem subBold_copy : ∀ (p t : List Char), '*' ∉ p →
    subBold (p ++ t) = p ++ subBold t := by
  intro p t
  induction p with
  | nil => intro _; simp
  | cons c p' ih =>
    intro hp
    simp only [List.mem_cons, not_or] at hp
    rw [List.cons_append, subBold_cons_none (boldAt_ne_star _ (Ne.symm hp.1))]
    rw [ih (by simpa using hp.2)]
    rfl

theorem subLink_copy : ∀ (p t : List Char), '[' ∉ p →
    subLink (p ++ t) = p ++ subLink t := by
  intro p t
  induction p with
  | nil => intro _; simp
  | cons c p' ih =>
    intro hp
    simp only [List.mem_cons, not_or] at hp
    rw [List.cons_append, subLink_cons_none (linkAt_ne_lb _ (Ne.symm hp.1))]
    rw [ih (by simpa using hp.2)]
    rfl

theorem subBold_nil : subBold [] = [] := rfl

theorem subBold_id_of_no_star : ∀ (l : List Char), '*' ∉ l → subBold l = l := by
  intro l h
  have := subBold_copy l [] h
  simpa [subBold_nil] using this

theorem subLink_nil : subLink [] = [] := rfl

theorem subLink_id_of_no_lb : ∀ (l : List Char), '[' ∉ l → subLink l = l := by
  intro l h
  have := subLink_copy l [] h
  simpa [subLink_nil] using this

theorem closeStars_none_of_no_star : ∀ (l : List Char), '*' ∉ l →
    closeStars l = none := by
  intro l
  induction l with
  | nil => intro _; rfl
  | cons c cs ih =>
    intro h
    simp only [List.mem_cons, not_or] at h
    cases cs with
    | nil => rfl
    | cons c' cs' =>
      rw [closeStars]
      have hc : c ≠ '*' := Ne.symm h.1
      have hr : closeStars (c' :: cs') = none := ih (by simpa using h.2)
      simp [hc, hr]

theorem closeStars_star_cons : ∀ (b : List Char), '*' ∉ b →
    closeStars ('*' :: b) = none := by
  intro b hb
  cases b with
  | nil => rfl
  | cons x b' =>
    simp only [List.mem_cons, not_or] at hb
    have hx : x ≠ '*' := Ne.symm hb.1
    rw [closeStars]
    have hr : closeStars (x :: b') = none :=
      closeStars_none_of_no_star (x :: b') (by simp [List.mem_cons, not_or, hb])
    simp [hx, hr]

theorem subBold_4stars (b : List Char) (hb : '*' ∉ b) :
    subBold ('*' :: '*' :: '*' :: '*' :: b) = '*' :: '*' :: '*' :: '*' :: b := by
  have h0 : closeStars b = none := closeStars_none_of_no_star b hb
  have h1 : closeStars ('*' :: b) = none := closeStars_star_cons b hb
  have m0 : boldAt ('*' :: '*' :: '*' :: '*' :: b) = none := by
    rw [boldAt]
    simp [h1]
  have m1 : boldAt ('*' :: '*' :: '*' :: b) = none := by
    rw [boldAt]
    simp [h0]
  have m2 : boldAt ('*' :: '*' :: b) = none := by
    cases b with
    | nil => rfl
    | cons x b' =>
      simp only [List.mem_cons, not_or] at hb
      by_cases hx : x = '\n'
      · rw [boldAt]
        simp [hx]
      · rw [boldAt]
        have : closeStars b' = none :=
          closeStars_none_of_no_star b' (by simp [List.mem_cons, not_or, hb])
        simp [hx, this]
  have m3 : boldAt ('*' :: b) = none := by
    match b, hb with
    | [], _ => rfl
    | [x], _ => rfl
    | x :: x' :: b'', hb =>
      simp only [List.mem_cons, not_or] at hb
      rw [boldAt]
      simp [Ne.symm hb.1]
  rw [subBold_cons_none m0, subBold_cons_none m1, subBold_cons_none m2,
    subBold_cons_none m3, subBold_id_of_no_star b hb]

theorem linkTail_none_of_no_rb : ∀ (l : List Char), ']' ∉ l →
    linkTail l = none := by
  intro l
  induction l with
  | nil => intro _; rfl
  | cons c cs ih =>
    intro h
    simp only [List.mem_cons, not_or] at h
    cases cs with
    | nil => rfl
    | cons c' cs' =>
      rw [linkTail]
      have hc : c ≠ ']' := Ne.symm h.1
      have hr : linkTail (c' :: cs') = none := ih (by simpa using h.2)
      simp [hc, hr]

theorem subLink_emptylink (b : List Char) (hb1 : '[' ∉ b) (hb2 : ']' ∉ b) :
    subLink ('[' :: ']' :: '(' :: ')' :: b) = '[' :: ']' :: '(' :: ')' :: b := by
  have ht : linkTail ('(' :: ')' :: b) = none :=
    linkTail_none_of_no_rb _ (by simp [List.mem_cons, not_or, hb2])
  have m0 : linkAt ('[' :: ']' :: '(' :: ')' :: b) = none := by
    rw [linkAt]
    simp [ht]
  have m1 : linkAt (']' :: '(' :: ')' :: b) = none := linkAt_ne_lb _ (by decide)
  have m2 : linkAt ('(' :: ')' :: b) = none := linkAt_ne_lb _ (by decide)
  have m3 : linkAt (')' :: b) = none := linkAt_ne_lb _ (by decide)
  rw [subLink_cons_none m0, subLink_cons_none m1, subLink_cons_none m2,
    subLink_cons_none m3, subLink_id_of_no_lb b hb1]

theorem boldAt_capture_ne_nil : ∀ (l g r : List Char),
    boldAt l = some (g, r) → g ≠ [] := by
  intro l g r h
  match l with
  | [] => simp [boldAt] at h
  | [c] => simp [boldAt] at h
  | [c, c'] => simp [boldAt] at h
  | c1 :: c2 :: c3 :: cs =>
    rw [boldAt] at h
    split at h
    · cases hc : closeStars cs with
      | none => rw [hc] at h; simp at h
      | some p =>
        obtain ⟨a, b⟩ := p
        rw [hc] at h
        simp at h
        obtain ⟨rfl, rfl⟩ := h
        simp
    · simp at h

theorem g2At_capture_ne_nil : ∀ (l g r : List Char),
    g2At l = some (g, r) → g ≠ [] := by
  intro l g r h
  match l with
  | [] => simp [g2At] at h
  | c :: cs =>
    rw [g2At] at h
    split at h
    · simp at h
    · cases hc : closeParen cs with
      | none => rw [hc] at h; simp at h
      | some p =>
        obtain ⟨a, b⟩ := p
        rw [hc] at h
        simp at h
        obtain ⟨rfl, rfl⟩ := h
        simp

theorem linkTail_g2_ne_nil : ∀ (l g1 g2 r : List Char),
    linkTail l = some (g1, g2, r) → g2 ≠ [] := by
  intro l
  induction l with
  | nil => intro g1 g2 r h; simp [linkTail] at h
  | cons c cs ih =>
    intro g1 g2 r h
    match cs with
    | [] => simp [linkTail] at h
    | c' :: cs' =>
      rw [linkTail] at h
      split at h
      · cases hg : g2At cs' with
        | some q =>
          obtain ⟨a, b⟩ := q
          rw [hg] at h
          dsimp only at h
          simp at h
          obtain ⟨rfl, rfl, rfl⟩ := h
          exact g2At_capture_ne_nil cs' a b hg
        | none =>
          rw [hg] at h
          dsimp only at h
          cases ht : linkTail (c' :: cs') with
          | none => rw [ht] at h; simp at h
          | some q =>
            obtain ⟨a, b, d⟩ := q
            rw [ht] at h
            simp at h
            obtain ⟨rfl, rfl, rfl⟩ := h
            exact ih a b d ht
      · split at h
        · simp at h
        · cases ht : linkTail (c' :: cs') with
          | none => rw [ht] at h; simp at h
          | some q =>
            obtain ⟨a, b, d⟩ := q
            rw [ht] at h
            simp at h
            obtain ⟨rfl, rfl, rfl⟩ := h
            exact ih a b d ht

theorem linkAt_captures_ne_nil : ∀ (l g1 g2 r : List Char),
    linkAt l = some (g1, g2, r) → g1 ≠ [] ∧ g2 ≠ [] := by
  intro l g1 g2 r h
  match l with
  | [] => simp [linkAt] at h
  | [c] => simp [linkAt] at h
  | c :: c' :: cs =>
    rw [linkAt] at h
    split at h
    · cases ht : linkTail cs with
      | none => rw [ht] at h; simp at h
      | some q =>
        obtain ⟨a, b, d⟩ := q
        rw [ht] at h
        simp at h
        obtain ⟨rfl, rfl, rfl⟩ := h
        exact ⟨by simp, linkTail_g2_ne_nil cs a b d ht⟩
    · simp at h

theorem takeWhile_no_nl : ∀ (l : List Char), '\n' ∉ l →
    l.takeWhile (fun ch => ch != '\n') = l := by
  intro l
  induction l with
  | nil => intro _; rfl
  | cons c cs ih =>
    intro h
    simp only [List.mem_cons, not_or] at h
    have hc : (c != '\n') = true := by
      simp [Ne.symm h.1]
    rw [List.takeWhile_cons, hc]
    simp only [if_true]
    rw [ih (by simpa using h.2)]

theorem dropWhile_no_nl : ∀ (l : List Char), '\n' ∉ l →
    l.dropWhile (fun ch => ch != '\n') = [] := by
  intro l
  induction l with
  | nil => intro _; rfl
  | cons c cs ih =>
    intro h
    simp only [List.mem_cons, not_or] at h
    have hc : (c != '\n') = true := by
      simp [Ne.symm h.1]
    rw [List.dropWhile_cons, hc]
    simp only [if_true]
    exact ih (by simpa using h.2)

theorem headAt_marker (c : Char) (t : List Char) (hc : isWS c = false)
    (hnl : '\n' ∉ c :: t) :
    headAt ('#' :: '#' :: '#' :: ' ' :: c :: t) = some (c :: t, []) := by
  rw [headAt]
  rw [if_pos (by decide)]
  rw [hAfterWS, hc]
  simp only [Bool.false_eq_true, if_false]
  simp [splitNl, takeWhile_no_nl _ hnl, dropWhile_no_nl _ hnl]

/-! ## Helper lemmas about the fetcher -/

theorem fetch_papers_shift (parse : String → List FeedEntry) :
    ∀ (fs : List FeedInfo) (acc : List Paper),
      fs.foldl
        (fun papers fj =>
          papers ++ ((parse fj.url).take 50).map (entryToPaper fj.name)) acc
      = acc ++ fetch_papers parse fs := by
  intro fs
  induction fs with
  | nil => intro acc; simp [fetch_papers]
  | cons fj rest ih =>
    intro acc
    rw [fetch_papers]
    simp only [List.foldl_cons, List.nil_append]
    rw [ih, ih (((parse fj.url).take 50).map (entryToPaper fj.name))]
    simp [List.append_assoc]

theorem subHead_nil : subHead [] = [] := rfl

/-! ## Claims -/

/-- C1 counterexample: the heading pass (line 104) is unanchored — in
`"a ### b"` the `###` occurrence does not begin a line, yet the pass
transforms it, contradicting the claim that such occurrences are left
untransformed. -/
theorem C1_counterexample :
    subHead "a ### b".data = "a <h3>b</h3>".data ∧
      subHead "a ### b".data ≠ "a ### b".data := by
  decide

/-- C1 (amended): every occurrence of `###` followed by whitespace and
line text becomes a level-3 heading element wrapping the text, regardless
of its position in the line — the pattern `###\s+(.+)` carries no
line-start anchor.  Stated for a marker preceded by arbitrary hash-free
text and followed by one space and a newline-free capture whose first
character is not whitespace. -/
theorem C1_heading_pass_unanchored (p t : List Char) (c : Char)
    (hp : '#' ∉ p) (hc : isWS c = false) (hnl : '\n' ∉ c :: t) :
    subHead (p ++ ('#' :: '#' :: '#' :: ' ' :: c :: t)) =
      p ++ "<h3>".data ++ (c :: t) ++ "</h3>".data := by
  rw [subHead_copy _ _ hp]
  rw [subHead_cons_some (headAt_marker c t hc hnl)]
  rw [subHead_nil]
  simp [List.append_assoc]

/-- C1 witness: the amended statement at a concrete mid-line occurrence. -/
theorem C1_witness :
    subHead ("x ".data ++ ('#' :: '#' :: '#' :: ' ' :: 'T' :: "itle".data)) =
      "x ".data ++ "<h3>".data ++ ('T' :: "itle".data) ++ "</h3>".data :=
  C1_heading_pass_unanchored "x ".data "itle".data 'T' (by decide) (by decide)
    (by decide)

/-- C2: the ranking client's prompt depends only on the first 150 records
(lines 52-53), and when the GEMINI_API_KEY environment value is absent it
returns the credential error with an empty external-call trace — before the
model is configured or invoked — for every input and every model oracle. -/
theorem C2_prompt_truncation_and_missing_key
    (env : String → Option String) (gen : String → String)
    (papers : List Paper) (ri : String) (mp : Nat) :
    promptOf ri mp papers = promptOf ri mp (papers.take 150) ∧
      (env "GEMINI_API_KEY" = none →
        filter_and_rank_papers env gen papers ri mp =
          (.err "GEMINI_API_KEY not found in environment variables", [],
            papers)) := by
  constructor
  · unfold promptOf papersListOf
    rw [List.take_take]
    simp
  · intro h
    unfold filter_and_rank_papers
    rw [h]
    simp

/-- C2 witness: concrete instance with the key absent. -/
theorem C2_witness :
    filter_and_rank_papers (fun _ => none) (fun _ => "response") [] "econ" 5 =
      (.err "GEMINI_API_KEY not found in environment variables", [], []) :=
  (C2_prompt_truncation_and_missing_key (fun _ => none) (fun _ => "response")
    [] "econ" 5).2 rfl

/-- C3: for every feed-source list the fetcher's output length is the sum
over sources of min(50, entries available), and the output is ordered
source-then-entry: the records of the first feed, in entry order, precede
all records of the remaining feeds. -/
theorem C3_fetch_length_and_order (parse : String → List FeedEntry) :
    (∀ feeds : List FeedInfo,
      (fetch_papers parse feeds).length =
        (feeds.map (fun fi => min 50 (parse fi.url).length)).sum) ∧
      (∀ (fi : FeedInfo) (feeds : List FeedInfo),
        fetch_papers parse (fi :: feeds) =
          ((parse fi.url).take 50).map (entryToPaper fi.name) ++
            fetch_papers parse feeds) := by
  have cons_eq : ∀ (fi : FeedInfo) (feeds : List FeedInfo),
      fetch_papers parse (fi :: feeds) =
        ((parse fi.url).take 50).map (entryToPaper fi.name) ++
          fetch_papers parse feeds := by
    intro fi feeds
    rw [fetch_papers]
    simp only [List.foldl_cons, List.nil_append]
    exact fetch_papers_shift parse feeds _
  refine ⟨?_, cons_eq⟩
  intro feeds
  induction feeds with
  | nil => rfl
  | cons fi rest ih =>
    rw [cons_eq]
    simp [List.length_take, ih]

/-- C4: on the input `"### Title\n\n**Bold** and [text](http://x)"` the four
passes produce exactly one h3 element, one strong element, one anchor, and
one double break between the heading and the remaining content, with no
other changes. -/
theorem C4_concrete_render :
    renderPasses "### Title\n\n**Bold** and [text](http://x)".data =
      "<h3>Title</h3><br><br><strong>Bold</strong> and <a href=\"http://x\">text</a>".data := by
  decide

/-- C5: on text where no position matches any of the three substitution
patterns, the first three passes are the identity, so the pipeline performs
only the double-newline-to-double-break replacement; when additionally no
double newline occurs, the text is returned identically. -/
theorem C5_markerfree_identity (t : List Char) (h : noMarkers t = true) :
    renderPasses t = subBreaks t ∧
      (noDoubleNL t = true → renderPasses t = t) := by
  have h123 : subLink (subBold (subHead t)) = t := by
    rw [subHead_id_of_noMarkers t h, subBold_id_of_noMarkers t h,
      subLink_id_of_noMarkers t h]
  constructor
  · unfold renderPasses
    rw [h123]
  · intro h2
    unfold renderPasses
    rw [h123, subBreaks_id_of_noDoubleNL t h2]

/-- C5 witness: a concrete marker-free text without double newlines. -/
theorem C5_witness :
    renderPasses "plain text, no markup".data =
        subBreaks "plain text, no markup".data ∧
      renderPasses "plain text, no markup".data = "plain text, no markup".data :=
  ⟨(C5_markerfree_identity "plain text, no markup".data (by decide)).1,
   (C5_markerfree_identity "plain text, no markup".data (by decide)).2
     (by decide)⟩

/-- C6: with `email_method` absent (default print) or `"print"`, delivery
emits the success line, the recipient line, the preview header, and the
first 500 characters of the HTML to the console, raises nothing, and
performs no SMTP activity — for every environment and transport oracle. -/
theorem C6_print_mode (env : String → Option String) (smtpFail : Option String)
    (now html : String) (config : Config)
    (h : config.email_method = none ∨ config.email_method = some "print") :
    send_email env smtpFail now html config =
      ([.print "Email generation successful!",
        .print ("Would send to: " ++ config.email),
        .print "\nPreview:",
        .print (strTake html 500)], none) := by
  unfold send_email
  rcases h with h | h <;> rw [h] <;> simp

/-- C6 witness: concrete print-mode delivery with the method key absent. -/
theorem C6_witness :
    send_email (fun _ => none) none "2026-10-12" "<html><body>hi</body></html>"
      { email := "user@example.com", email_method := none } =
      ([.print "Email generation successful!",
        .print "Would send to: user@example.com",
        .print "\nPreview:",
        .print "<html><body>hi</body></html>"], none) :=
  (C6_print_mode (fun _ => none) none "2026-10-12" "<html><body>hi</body></html>"
    { email := "user@example.com", email_method := none } (Or.inl rfl)).trans
    (by decide)

/-- C7: with `email_method = "gmail"` and either sender credential absent
from the environment, delivery raises the credential error with an empty
event trace — no connection to the mail relay is attempted. -/
theorem C7_gmail_missing_credentials (env : String → Option String)
    (smtpFail : Option String) (now html : String) (config : Config)
    (hm : config.email_method = some "gmail")
    (h : env "GMAIL_ADDRESS" = none ∨ env "GMAIL_APP_PASSWORD" = none) :
    send_email env smtpFail now html config =
      ([], some "Gmail credentials not found. Set GMAIL_ADDRESS and GMAIL_APP_PASSWORD in secrets.") := by
  unfold send_email
  rw [hm]
  rcases h with h | h <;> simp [h]

/-- C7 witness: concrete gmail-mode delivery with an empty environment. -/
theorem C7_witness :
    send_email (fun _ => none) none "2026-10-12" "<html>"
      { email := "user@example.com", email_method := some "gmail" } =
      ([], some "Gmail credentials not found. Set GMAIL_ADDRESS and GMAIL_APP_PASSWORD in secrets.") :=
  C7_gmail_missing_credentials (fun _ => none) none "2026-10-12" "<html>"
    { email := "user@example.com", email_method := some "gmail" } rfl
    (Or.inl rfl)

/-- C8: with an `email_method` value that is neither `"print"` nor
`"gmail"`, delivery raises the configuration error naming the value, with
an empty event trace — no output and no network activity precede the
failure. -/
theorem C8_unknown_method (env : String → Option String)
    (smtpFail : Option String) (now html : String) (config : Config)
    (m : String) (hm : config.email_method = some m)
    (h1 : m ≠ "print") (h2 : m ≠ "gmail") :
    send_email env smtpFail now html config =
      ([], some ("Unknown email method: " ++ m ++
        ". Use \x27print\x27 or \x27gmail\x27")) := by
  unfold send_email
  rw [hm]
  simp [h1, h2]

/-- C8 witness: concrete delivery with an unsupported method value. -/
theorem C8_witness :
    send_email (fun _ => none) none "2026-10-12" "<html>"
      { email := "user@example.com", email_method := some "carrier" } =
      ([], some ("Unknown email method: " ++ "carrier" ++
        ". Use \x27print\x27 or \x27gmail\x27")) :=
  C8_unknown_method (fun _ => none) none "2026-10-12" "<html>"
    { email := "user@example.com", email_method := some "carrier" } "carrier"
    rfl (by decide) (by decide)

/-- C9 counterexample: the four-character sequence `****` does not always
pass through the bold pass unchanged — a preceding bold opener absorbs two
of its asterisks as a closing delimiter. -/
theorem C9_counterexample :
    subBold "**a****".data = "<strong>a</strong>**".data ∧
      subBold "**a****".data ≠ "**a****".data := by
  decide

/-- C9 (amended): the bold and link passes never produce an empty capture —
every bold match captures a non-empty span and every link match a non-empty
label and URL, because `(.+?)` requires at least one character — so `****`
is never rewritten to an empty strong element and `[]()` never to an empty
anchor.  Both sequences pass through the respective pass unchanged whenever
the surrounding text contributes no interfering marker characters (no
asterisks around `****`; no brackets around `[]()`); adjacent marker
characters may instead absorb them into a larger non-empty match. -/
theorem C9_no_empty_captures :
    (∀ l g r : List Char, boldAt l = some (g, r) → g ≠ []) ∧
      (∀ l g1 g2 r : List Char,
        linkAt l = some (g1, g2, r) → g1 ≠ [] ∧ g2 ≠ []) ∧
      (∀ a b : List Char, '*' ∉ a → '*' ∉ b →
        subBold (a ++ ('*' :: '*' :: '*' :: '*' :: b)) =
          a ++ ('*' :: '*' :: '*' :: '*' :: b)) ∧
      (∀ a b : List Char, '[' ∉ a → '[' ∉ b → ']' ∉ b →
        subLink (a ++ ('[' :: ']' :: '(' :: ')' :: b)) =
          a ++ ('[' :: ']' :: '(' :: ')' :: b)) := by
  refine ⟨boldAt_capture_ne_nil, linkAt_captures_ne_nil, ?_, ?_⟩
  · intro a b ha hb
    rw [subBold_copy _ _ ha, subBold_4stars b hb]
  · intro a b ha hb1 hb2
    rw [subLink_copy _ _ ha, subLink_emptylink b hb1 hb2]

/-- C9 witness: a concrete non-empty capture and concrete pass-through
instances of `****` and `[]()`. -/
theorem C9_witness :
    "a".data ≠ ([] : List Char) ∧
      subBold ("x ".data ++ ('*' :: '*' :: '*' :: '*' :: [])) =
        "x ".data ++ ('*' :: '*' :: '*' :: '*' :: []) ∧
      subLink ("x ".data ++ ('[' :: ']' :: '(' :: ')' :: [])) =
        "x ".data ++ ('[' :: ']' :: '(' :: ')' :: []) :=
  ⟨C9_no_empty_captures.1 "**a**".data "a".data [] (by decide),
   C9_no_empty_captures.2.2.1 "x ".data [] (by decide) (by decide),
   C9_no_empty_captures.2.2.2 "x ".data [] (by decide) (by decide) (by decide)⟩

/-- C10: the ranking client leaves its papers argument unchanged — the
final contents of the caller's list (third result component) equal the
input list, record for record, for every environment, model oracle, and
input. -/
theorem C10_papers_unchanged (env : String → Option String)
    (gen : String → String) (papers : List Paper) (ri : String) (mp : Nat) :
    (filter_and_rank_papers env gen papers ri mp).2.2 = papers := by
  unfold filter_and_rank_papers
  by_cases h : (env "GEMINI_API_KEY").getD "" = "" <;> simp [h]
